import Mathlib

/-!
Verification of the asynchronous humanization job queue of the backend:
the `QueueService` class (`src/utils/dbMigration.js`, second document:
`addToQueue`, `getStatus`, `getUserRequests`, `processNextItem`,
`retryRequest`) and the worker loop (`processQueue` in the worker file).

The shallow embedding models the `humanization_queue` table as a list of
rows, SQL `NOW()` as an explicit `now : Nat` parameter, and the external
humanizer (`humanizeText`) as a function `String → Except String String`
(reject with an error message, or resolve with the humanized text).
The claim transaction (`SELECT ... FOR UPDATE SKIP LOCKED` followed by the
`UPDATE` to `processing`, between `BEGIN` and `COMMIT`) is atomic in
PostgreSQL, so concurrent invocations serialize; it is embedded as the
atomic function `claimStep`.
-/

namespace HumanizeQueue

/-- The `status` column: `pending`, `processing`, `completed`, `failed`. -/
inductive Status where
  | pending
  | processing
  | completed
  | failed
deriving DecidableEq, Repr

/-- One row of the `humanization_queue` table (schema in the migration file:
`id, user_id, original_text, humanized_text, status, attempts, created_at,
updated_at, completed_at, error_message, word_count`). Timestamps are `Nat`. -/
structure Job where
  id : Nat
  userId : Nat
  originalText : String
  humanizedText : Option String
  status : Status
  attempts : Nat
  errorMessage : Option String
  wordCount : Nat
  createdAt : Nat
  updatedAt : Nat
  completedAt : Option Nat
deriving DecidableEq, Repr

/-- One row of the `humanize_usage` table
(`INSERT INTO humanize_usage (user_id, word_count, timestamp)`). -/
structure UsageRow where
  userId : Nat
  wordCount : Nat
  timestamp : Nat
deriving DecidableEq, Repr

/-- The database state seen by the queue service: the `humanization_queue`
rows, the next `SERIAL` id the insert will assign, and the `humanize_usage`
rows. -/
structure QueueDB where
  rows : List Job
  nextId : Nat
  usage : List UsageRow
deriving DecidableEq, Repr

/-- The two error messages thrown by the synchronous queue operations:
`Request not found or not authorized` and
`Cannot retry request with status: <status>`. -/
inductive QueueError where
  | notFoundOrNotAuthorized
  | invalidState (s : Status)
deriving DecidableEq, Repr

/-- The external humanizer adapter contract:
`humanize(text) -> Promise<string>`, which may reject. -/
def Adapter : Type := String → Except String String

/-- Well-formedness of the table: `id` is a `SERIAL PRIMARY KEY`, so row ids
are pairwise distinct and below the next id to be assigned. -/
def WF (db : QueueDB) : Prop :=
  (db.rows.map Job.id).Nodup ∧ ∀ j ∈ db.rows, j.id < db.nextId

/-- The row `addToQueue` inserts: `status = 'pending'`, the other columns at
their schema defaults (`attempts 0`, `humanized_text NULL`,
`error_message NULL`, `created_at/updated_at NOW()`, `completed_at NULL`). -/
def newJob (db : QueueDB) (userId : Nat) (text : String) (wordCount : Nat)
    (now : Nat) : Job :=
  { id := db.nextId
    userId := userId
    originalText := text
    humanizedText := none
    status := Status.pending
    attempts := 0
    errorMessage := none
    wordCount := wordCount
    createdAt := now
    updatedAt := now
    completedAt := none }

/-- Embedding of `QueueService.addToQueue(userId, text, wordCount)`: inserts
the new pending row and returns `id, status, created_at` from the
`RETURNING` clause. -/
def addToQueue (db : QueueDB) (userId : Nat) (text : String) (wordCount : Nat)
    (now : Nat) : QueueDB × (Nat × Status × Nat) :=
  let j : Job := newJob db userId text wordCount now
  ({ db with rows := db.rows ++ [j], nextId := db.nextId + 1 },
   (j.id, j.status, j.createdAt))

/-- Embedding of `QueueService.getStatus(requestId, userId)`: `SELECT * ... WHERE id = $1
AND user_id = $2`; throws `Request not found or not authorized` when no row
matches. -/
def getStatus (db : QueueDB) (requestId userId : Nat) : Except QueueError Job :=
  match db.rows.find? (fun r => decide (r.id = requestId ∧ r.userId = userId)) with
  | none => Except.error QueueError.notFoundOrNotAuthorized
  | some j => Except.ok j

/-- Embedding of `QueueService.getUserRequests(userId, limit, offset)`: rows of the user,
`ORDER BY created_at DESC LIMIT $2 OFFSET $3`. -/
def getUserRequests (db : QueueDB) (userId limit offset : Nat) : List Job :=
  (((db.rows.filter (fun r => decide (r.userId = userId))).mergeSort
      (fun a b => decide (b.createdAt ≤ a.createdAt))).drop offset).take limit

/-- The row, if any, returned by `SELECT ... WHERE status = 'pending'
ORDER BY created_at ASC LIMIT 1`: a pending row of minimal `created_at`
(earliest listed wins a tie). -/
def minByCreated : List Job → Option Job
  | [] => none
  | j :: js =>
    match minByCreated js with
    | none => some j
    | some m => if j.createdAt ≤ m.createdAt then some j else some m

/-- The pending row the claim query selects, if any. -/
def oldestPending (rows : List Job) : Option Job :=
  minByCreated (rows.filter (fun r => decide (r.status = Status.pending)))

/-- The `UPDATE humanization_queue SET status = 'processing',
attempts = attempts + 1, updated_at = NOW() WHERE id = $1` applied to one row. -/
def claimRow (now : Nat) (r : Job) : Job :=
  { r with status := Status.processing, attempts := r.attempts + 1, updatedAt := now }

/-- Update the rows whose id matches (the `WHERE id = $1` of an `UPDATE`). -/
def updateById (rows : List Job) (i : Nat) (f : Job → Job) : List Job :=
  rows.map (fun r => if r.id = i then f r else r)

/-- The claim transaction of `processNextItem` (`BEGIN`, the locked select,
the update to `processing`, `COMMIT`): atomically take the oldest pending
row, mark it `processing` with `attempts + 1`, and return the row *as
selected* (the JS `item`, whose `attempts` field is the pre-increment
value). Returns `none` when no pending row exists. -/
def claimStep (db : QueueDB) (now : Nat) : QueueDB × Option Job :=
  match oldestPending db.rows with
  | none => (db, none)
  | some item =>
      ({ db with rows := updateById db.rows item.id (claimRow now) }, some item)

/-- The success update of `processNextItem`: `SET status = 'completed',
humanized_text = $1, updated_at = NOW(), completed_at = NOW()`. -/
def completeRow (t : String) (now : Nat) (r : Job) : Job :=
  { r with status := Status.completed, humanizedText := some t,
           updatedAt := now, completedAt := some now }

/-- The failure update of `processNextItem`: `SET status = $1,
error_message = $2, updated_at = NOW()`. -/
def failRow (s : Status) (e : String) (now : Nat) (r : Job) : Job :=
  { r with status := s, errorMessage := some e, updatedAt := now }

/-- The `maxAttempts` constant of `processNextItem`. -/
def maxAttempts : Nat := 3

/-- Embedding of `QueueService.processNextItem()`: claim the oldest pending row (or return
`false` when none), call the humanizer on `item.original_text`, then either
record completion plus a `humanize_usage` row, or set
`item.attempts >= maxAttempts ? 'failed' : 'pending'` with the error message
(note: `item.attempts` is the value selected *before* the increment).
Returns `true` whenever a row was claimed. -/
def processNextItem (adapter : Adapter) (db : QueueDB) (now : Nat) :
    QueueDB × Bool :=
  match claimStep db now with
  | (db1, none) => (db1, false)
  | (db1, some item) =>
      match adapter item.originalText with
      | Except.ok t =>
          ({ db1 with
              rows := updateById db1.rows item.id (completeRow t now)
              usage := db1.usage ++
                [{ userId := item.userId, wordCount := item.wordCount,
                   timestamp := now }] },
           true)
      | Except.error e =>
          let newStatus :=
            if maxAttempts ≤ item.attempts then Status.failed else Status.pending
          ({ db1 with rows := updateById db1.rows item.id (failRow newStatus e now) },
           true)

/-- A storage fault injected into the claim/update transaction of
`processNextItem`: the message the failing query rejects with, and whether
the connection itself is lost. On a lost connection the catch block's own
`await client.query('ROLLBACK')` also rejects (node-postgres refuses every
query on a terminated client), so the exception escapes `processNextItem`;
on a fault that leaves the connection usable (a statement timeout, a SQL
error, a deadlock abort) the `ROLLBACK` succeeds and the catch swallows the
error. -/
structure TxnFault where
  message : String
  connectionLost : Bool
deriving DecidableEq, Repr

/-- Embedding of the whole `processNextItem` body with its `try`/`catch`:
with no fault it computes `processNextItem`; with a fault the catch runs —
if the connection is lost its `ROLLBACK` rejects too and the call rejects
(`Except.error`), otherwise the rollback succeeds, the error is logged and
swallowed, and the call resolves `false` with the transaction rolled
back. -/
def processNextItemTx (fault : Option TxnFault) (adapter : Adapter)
    (db : QueueDB) (now : Nat) : Except String (QueueDB × Bool) :=
  match fault with
  | none => Except.ok (processNextItem adapter db now)
  | some f =>
      if f.connectionLost then Except.error f.message
      else Except.ok (db, false)

/-- The retry update of `retryRequest`: `SET status = 'pending',
updated_at = NOW(), error_message = NULL WHERE id = $1`. -/
def retryRow (now : Nat) (r : Job) : Job :=
  { r with status := Status.pending, updatedAt := now, errorMessage := none }

/-- Embedding of `QueueService.retryRequest(requestId, userId)`: select the row by id and
user id (`Request not found or not authorized` when absent), require
`status = 'failed'` (`Cannot retry request with status: ...` otherwise), then
reset it to `pending` with `error_message = NULL`. -/
def retryRequest (db : QueueDB) (requestId userId : Nat) (now : Nat) :
    Except QueueError QueueDB :=
  match db.rows.find? (fun r => decide (r.id = requestId ∧ r.userId = userId)) with
  | none => Except.error QueueError.notFoundOrNotAuthorized
  | some req =>
      if req.status = Status.failed then
        Except.ok { db with rows := updateById db.rows requestId (retryRow now) }
      else
        Except.error (QueueError.invalidState req.status)

/-- Run `n` sequential executions of the atomic claim transaction (the
serialization of `n` concurrent callers, which the row lock enforces),
collecting each caller's result. -/
def runClaims : Nat → QueueDB → Nat → QueueDB × List (Option Job)
  | 0, db, _ => (db, [])
  | n + 1, db, now =>
      let s := claimStep db now
      let t := runClaims n s.1 now
      (t.1, s.2 :: t.2)

/-- Number of rows with `status = 'pending'`. -/
def pendingCount (db : QueueDB) : Nat :=
  (db.rows.filter (fun r => decide (r.status = Status.pending))).length

/-- Outcome of one `QueueService.processNextItem()` call as the worker loop
observes it: resolved `true`, resolved `false`, or rejected. -/
inductive PollOutcome where
  | processed
  | empty
  | threw
deriving DecidableEq, Repr

/-- The `MAX_CONSECUTIVE_ERRORS` constant of the worker. -/
def maxConsecutiveErrors : Nat := 10

/-- One iteration of the worker loop `processQueue` acting on the
`consecutiveErrors` counter: returns the new counter and the sleep duration
(0 means "continue immediately"). On `processed`: reset to 0, no sleep. On
`empty`: sleep the polling interval. On an exception: increment; at or above
`MAX_CONSECUTIVE_ERRORS` sleep `POLLING_INTERVAL * 5` and set the counter to
`Math.floor(MAX_CONSECUTIVE_ERRORS / 2)`, otherwise sleep the interval. -/
def workerStep (interval consecutiveErrors : Nat) : PollOutcome → Nat × Nat
  | PollOutcome.processed => (0, 0)
  | PollOutcome.empty => (consecutiveErrors, interval)
  | PollOutcome.threw =>
      if maxConsecutiveErrors ≤ consecutiveErrors + 1 then
        (maxConsecutiveErrors / 2, interval * 5)
      else
        (consecutiveErrors + 1, interval)

/-- One iteration of the `processQueue` loop around the fallible call: a
rejection lands in the loop's own `catch` (`threw`), a resolution is
`processed` or `empty`. Returns the database, the new `consecutiveErrors`
counter, and the sleep duration; the loop then continues in every case — it
does not crash. -/
def workerIterationTx (interval consecutiveErrors : Nat) (fault : Option TxnFault)
    (adapter : Adapter) (db : QueueDB) (now : Nat) : QueueDB × Nat × Nat :=
  match processNextItemTx fault adapter db now with
  | Except.error _ => (db, workerStep interval consecutiveErrors PollOutcome.threw)
  | Except.ok r =>
      (r.1, workerStep interval consecutiveErrors
        (if r.2 then PollOutcome.processed else PollOutcome.empty))

/-- The completion invariant on one row: `humanized_text` non-null iff
`status = 'completed'`. -/
def JobInv (j : Job) : Prop :=
  j.humanizedText ≠ none ↔ j.status = Status.completed

/-- The completion invariant on the whole table. -/
def CompletionInv (db : QueueDB) : Prop :=
  ∀ j ∈ db.rows, JobInv j

/-- The attempt cap on one row: a `failed` row carries at least
`maxAttempts + 1` attempts (the code marks `failed` only when the
pre-increment `item.attempts` is already `≥ maxAttempts`). -/
def JobCap (j : Job) : Prop :=
  j.status = Status.failed → maxAttempts + 1 ≤ j.attempts

/-- The attempt cap on the whole table. -/
def FailedAtCap (db : QueueDB) : Prop :=
  ∀ j ∈ db.rows, JobCap j

/-! Concrete sample data used to evaluate the model on closed inputs. -/

/-- An adapter that rejects every call with the message `timeout`. -/
def failingAdapter : Adapter := fun _ => Except.error "timeout"

/-- An adapter that resolves every call with `HELLO WORLD`. -/
def okAdapter : Adapter := fun _ => Except.ok "HELLO WORLD"

/-- A fresh pending job as `addToQueue` creates it. -/
def scenarioJob : Job :=
  { id := 1, userId := 7, originalText := "hello world", humanizedText := none,
    status := Status.pending, attempts := 0, errorMessage := none,
    wordCount := 2, createdAt := 0, updatedAt := 0, completedAt := none }

/-- A table holding only the fresh job. -/
def scenarioDB : QueueDB := { rows := [scenarioJob], nextId := 2, usage := [] }

/-- The table after `n` calls to `processNextItem` whose every humanize call
rejects. -/
def iterFail : Nat → QueueDB
  | 0 => scenarioDB
  | n + 1 => (processNextItem failingAdapter (iterFail n) (n + 1)).1

/-- A job that exhausted its budget: `failed` after four failing attempts. -/
def failedJob : Job :=
  { id := 1, userId := 7, originalText := "hello world", humanizedText := none,
    status := Status.failed, attempts := 4, errorMessage := some "timeout",
    wordCount := 2, createdAt := 0, updatedAt := 4, completedAt := none }

/-- A table holding only the failed job. -/
def failedDB : QueueDB := { rows := [failedJob], nextId := 2, usage := [] }

/-- The expected table after retrying the failed job at time 8. -/
def retriedDB : QueueDB :=
  { rows := [{ failedJob with
               status := Status.pending, updatedAt := 8, errorMessage := none }],
    nextId := 2, usage := [] }

/-- A table with two pending jobs listed out of creation order. -/
def twoPendingDB : QueueDB :=
  { rows :=
      [{ scenarioJob with id := 1, createdAt := 5 },
       { scenarioJob with id := 2, createdAt := 3 }],
    nextId := 3, usage := [] }

/-- A table with no pending row (one completed, one failed). -/
def noPendingDB : QueueDB :=
  { rows :=
      [{ scenarioJob with
         id := 1, status := Status.completed,
         humanizedText := some "HELLO WORLD", completedAt := some 2 },
       { failedJob with id := 2 }],
    nextId := 3, usage := [] }

/-! Helper lemmas about the selection and update primitives. -/

theorem minByCreated_mem : ∀ {l : List Job} {j : Job}, minByCreated l = some j → j ∈ l := by
  intro l
  induction l with
  | nil => intro j h; simp [minByCreated] at h
  | cons a as ih =>
    intro j h
    cases hm : minByCreated as with
    | none =>
      simp [minByCreated, hm] at h
      exact h ▸ List.mem_cons_self a as
    | some m =>
      simp only [minByCreated, hm] at h
      split at h
      · exact (Option.some.inj h) ▸ List.mem_cons_self a as
      · exact List.mem_cons_of_mem a ((Option.some.inj h) ▸ ih hm)

theorem eq_nil_of_minByCreated_eq_none : ∀ {l : List Job}, minByCreated l = none → l = [] := by
  intro l h
  cases l with
  | nil => rfl
  | cons a as =>
    exfalso
    cases hm : minByCreated as with
    | none => simp [minByCreated, hm] at h
    | some m => simp only [minByCreated, hm] at h; split at h <;> cases h

theorem minByCreated_le : ∀ {l : List Job} {j : Job}, minByCreated l = some j →
    ∀ r ∈ l, j.createdAt ≤ r.createdAt := by
  intro l
  induction l with
  | nil => intro j h; simp [minByCreated] at h
  | cons a as ih =>
    intro j h r hr
    cases hm : minByCreated as with
    | none =>
      have has := eq_nil_of_minByCreated_eq_none hm
      subst has
      simp [minByCreated] at h
      rcases List.mem_cons.mp hr with heq | hr2
      · rw [heq, ← h]
      · cases hr2
    | some m =>
      simp only [minByCreated, hm] at h
      have hmr := ih hm
      rcases List.mem_cons.mp hr with heq | hr2
      · by_cases hc : a.createdAt ≤ m.createdAt
        · rw [if_pos hc] at h
          rw [heq, ← Option.some.inj h]
        · rw [if_neg hc] at h
          have hj := Option.some.inj h
          rw [heq, ← hj]
          omega
      · by_cases hc : a.createdAt ≤ m.createdAt
        · rw [if_pos hc] at h
          rw [← Option.some.inj h]
          exact Nat.le_trans hc (hmr r hr2)
        · rw [if_neg hc] at h
          rw [← Option.some.inj h]
          exact hmr r hr2

theorem oldestPending_mem {rows : List Job} {j : Job} (h : oldestPending rows = some j) :
    j ∈ rows ∧ j.status = Status.pending := by
  have hm := minByCreated_mem h
  rw [List.mem_filter] at hm
  exact ⟨hm.1, by simpa using hm.2⟩

theorem oldestPending_le {rows : List Job} {j : Job} (h : oldestPending rows = some j) :
    ∀ r ∈ rows, r.status = Status.pending → j.createdAt ≤ r.createdAt := by
  intro r hr hrp
  exact minByCreated_le h r (List.mem_filter.mpr ⟨hr, by simpa⟩)

theorem oldestPending_eq_none {rows : List Job} :
    oldestPending rows = none ↔ ∀ r ∈ rows, r.status ≠ Status.pending := by
  unfold oldestPending
  constructor
  · intro h r hr hrp
    have hnil := eq_nil_of_minByCreated_eq_none h
    have hmem : r ∈ rows.filter (fun r => decide (r.status = Status.pending)) :=
      List.mem_filter.mpr ⟨hr, by simpa⟩
    rw [hnil] at hmem
    exact absurd hmem (List.not_mem_nil r)
  · intro h
    have hnil : rows.filter (fun r => decide (r.status = Status.pending)) = [] := by
      rw [List.filter_eq_nil_iff]
      intro a ha
      simpa using h a ha
    rw [hnil]
    rfl

theorem updateById_cons {a : Job} {as : List Job} {i : Nat} {f : Job → Job} :
    updateById (a :: as) i f = (if a.id = i then f a else a) :: updateById as i f := rfl

theorem updateById_map_id {rows : List Job} {i : Nat} {f : Job → Job}
    (hf : ∀ r, (f r).id = r.id) :
    (updateById rows i f).map Job.id = rows.map Job.id := by
  unfold updateById
  rw [List.map_map]
  apply List.map_congr_left
  intro r _
  by_cases h : r.id = i <;> simp [Function.comp, h, hf]

theorem updateById_eq_self {rows : List Job} {i : Nat} {f : Job → Job}
    (h : ∀ r ∈ rows, r.id ≠ i) : updateById rows i f = rows := by
  unfold updateById
  calc rows.map (fun r => if r.id = i then f r else r)
      = rows.map id := List.map_congr_left (by intro r hr; simp [h r hr])
    _ = rows := List.map_id rows

theorem mem_updateById_of_ne {rows : List Job} {i : Nat} {f : Job → Job} {r : Job}
    (hr : r ∈ rows) (hne : r.id ≠ i) : r ∈ updateById rows i f :=
  List.mem_map.mpr ⟨r, hr, by simp [hne]⟩

theorem updated_mem_updateById {rows : List Job} {i : Nat} {f : Job → Job} {r : Job}
    (hr : r ∈ rows) (hid : r.id = i) : f r ∈ updateById rows i f :=
  List.mem_map.mpr ⟨r, hr, by simp [hid]⟩

theorem mem_updateById_elim {rows : List Job} {i : Nat} {f : Job → Job} {x : Job}
    (hx : x ∈ updateById rows i f) :
    ∃ r ∈ rows, x = if r.id = i then f r else r := by
  obtain ⟨r, hr, he⟩ := List.mem_map.mp hx
  exact ⟨r, hr, he.symm⟩

theorem row_eq_of_id_eq {rows : List Job} (hnd : (rows.map Job.id).Nodup)
    {a b : Job} (ha : a ∈ rows) (hb : b ∈ rows) (h : a.id = b.id) : a = b :=
  List.inj_on_of_nodup_map hnd ha hb h

theorem length_filter_updateById {rows : List Job} (hnd : (rows.map Job.id).Nodup)
    {j : Job} (hj : j ∈ rows) (hjp : j.status = Status.pending) {f : Job → Job}
    (hfj : (f j).status ≠ Status.pending) :
    ((updateById rows j.id f).filter (fun r => decide (r.status = Status.pending))).length + 1
      = (rows.filter (fun r => decide (r.status = Status.pending))).length := by
  induction rows with
  | nil => cases hj
  | cons a as ih =>
    rw [List.map_cons, List.nodup_cons] at hnd
    rcases List.mem_cons.mp hj with heq | hj2
    · subst heq
      have hids : ∀ r ∈ as, r.id ≠ j.id := by
        intro r hrin he
        exact hnd.1 (List.mem_map.mpr ⟨r, hrin, he⟩)
      rw [updateById_cons, if_pos rfl, updateById_eq_self hids]
      simp [List.filter_cons, hjp, hfj]
    · have haj : a.id ≠ j.id := by
        intro he
        exact hnd.1 (List.mem_map.mpr ⟨j, hj2, he.symm⟩)
      rw [updateById_cons, if_neg haj]
      have hrec := ih hnd.2 hj2
      by_cases hap : a.status = Status.pending
      · simp [List.filter_cons, hap]
        omega
      · simp [List.filter_cons, hap]
        omega

theorem claimStep_cases (db : QueueDB) (now : Nat) :
    (claimStep db now = (db, none) ∧ oldestPending db.rows = none) ∨
    (∃ j, oldestPending db.rows = some j ∧
      claimStep db now = ({ db with rows := updateById db.rows j.id (claimRow now) }, some j)) := by
  unfold claimStep
  cases ho : oldestPending db.rows with
  | none => exact Or.inl ⟨rfl, rfl⟩
  | some j => exact Or.inr ⟨j, rfl, rfl⟩

theorem claimStep_oldest {db db1 : QueueDB} {now : Nat} {j : Job}
    (h : claimStep db now = (db1, some j)) : oldestPending db.rows = some j := by
  rcases claimStep_cases db now with ⟨hc, _⟩ | ⟨i, hi, hc⟩
  · rw [h] at hc
    cases (Prod.mk.injEq _ _ _ _).mp hc |>.2
  · rw [h] at hc
    have := ((Prod.mk.injEq _ _ _ _).mp hc).2
    rw [hi]
    exact congrArg some (Option.some.inj this).symm

theorem claimStep_spec {db db1 : QueueDB} {now : Nat} {j : Job}
    (h : claimStep db now = (db1, some j)) :
    j ∈ db.rows ∧ j.status = Status.pending ∧
      db1 = { db with rows := updateById db.rows j.id (claimRow now) } := by
  have ho := claimStep_oldest h
  obtain ⟨hm, hp⟩ := oldestPending_mem ho
  refine ⟨hm, hp, ?_⟩
  rcases claimStep_cases db now with ⟨hc, hon⟩ | ⟨i, hi, hc⟩
  · rw [hon] at ho; cases ho
  · rw [hi] at ho
    have hij := Option.some.inj ho
    subst hij
    rw [h] at hc
    exact ((Prod.mk.injEq _ _ _ _).mp hc).1

theorem claimStep_eq_none {db : QueueDB} {now : Nat}
    (h : ∀ r ∈ db.rows, r.status ≠ Status.pending) : claimStep db now = (db, none) := by
  have ho : oldestPending db.rows = none := oldestPending_eq_none.mpr h
  unfold claimStep
  rw [ho]

theorem pendingCount_eq_zero {db : QueueDB} :
    pendingCount db = 0 ↔ ∀ r ∈ db.rows, r.status ≠ Status.pending := by
  unfold pendingCount
  rw [List.length_eq_zero, List.filter_eq_nil_iff]
  constructor
  · intro h r hr; simpa using h r hr
  · intro h r hr; simpa using h r hr

theorem WF_updateById {db : QueueDB} (hWF : WF db) {i : Nat} {f : Job → Job}
    (hf : ∀ r, (f r).id = r.id) :
    WF { db with rows := updateById db.rows i f } := by
  constructor
  · show ((updateById db.rows i f).map Job.id).Nodup
    rw [updateById_map_id hf]
    exact hWF.1
  · intro x hx
    obtain ⟨r, hr, he⟩ := mem_updateById_elim hx
    have : x.id = r.id := by
      rw [he]
      by_cases hc : r.id = i
      · rw [if_pos hc]; exact hf r
      · rw [if_neg hc]
    rw [show x.id < db.nextId ↔ x.id < ({ db with rows := updateById db.rows i f } : QueueDB).nextId from Iff.rfl] at *
    rw [this]
    exact hWF.2 r hr

theorem claimRow_id (now : Nat) (r : Job) : (claimRow now r).id = r.id := rfl

theorem completeRow_id (t : String) (now : Nat) (r : Job) : (completeRow t now r).id = r.id := rfl

theorem failRow_id (s : Status) (e : String) (now : Nat) (r : Job) :
    (failRow s e now r).id = r.id := rfl

theorem retryRow_id (now : Nat) (r : Job) : (retryRow now r).id = r.id := rfl

theorem WF_claimStep {db db1 : QueueDB} {now : Nat} {o : Option Job}
    (hWF : WF db) (h : claimStep db now = (db1, o)) : WF db1 := by
  rcases claimStep_cases db now with ⟨hc, _⟩ | ⟨i, _, hc⟩
  · rw [h] at hc
    rw [((Prod.mk.injEq _ _ _ _).mp hc).1]
    exact hWF
  · rw [h] at hc
    rw [((Prod.mk.injEq _ _ _ _).mp hc).1]
    exact WF_updateById hWF (claimRow_id now)

theorem pendingCount_claimStep {db db1 : QueueDB} {now : Nat} {j : Job}
    (hWF : WF db) (h : claimStep db now = (db1, some j)) :
    pendingCount db1 + 1 = pendingCount db := by
  obtain ⟨hm, hp, hdb⟩ := claimStep_spec h
  rw [hdb]
  exact length_filter_updateById hWF.1 hm hp (by simp [claimRow])

theorem mem_claimStep_of_processing {db db1 : QueueDB} {now : Nat} {o : Option Job}
    (hWF : WF db) (h : claimStep db now = (db1, o)) {x : Job}
    (hx : x ∈ db.rows) (hxs : x.status = Status.processing) : x ∈ db1.rows := by
  rcases claimStep_cases db now with ⟨hc, _⟩ | ⟨i, hi, hc⟩
  · rw [h] at hc
    rw [((Prod.mk.injEq _ _ _ _).mp hc).1]
    exact hx
  · rw [h] at hc
    rw [((Prod.mk.injEq _ _ _ _).mp hc).1]
    obtain ⟨him, hip⟩ := oldestPending_mem hi
    have hne : x.id ≠ i.id := by
      intro he
      have := row_eq_of_id_eq hWF.1 hx him he
      rw [this, hip] at hxs
      cases hxs
    exact mem_updateById_of_ne hx hne

theorem claimRow_mem_claimStep {db db1 : QueueDB} {now : Nat} {j : Job}
    (h : claimStep db now = (db1, some j)) : claimRow now j ∈ db1.rows := by
  obtain ⟨hm, _, hdb⟩ := claimStep_spec h
  rw [hdb]
  exact updated_mem_updateById hm rfl

theorem filter_none_add_filterMap (l : List (Option Job)) :
    (l.filter (fun o => decide (o = none))).length + (l.filterMap id).length = l.length := by
  induction l with
  | nil => rfl
  | cons a as ih =>
    cases a with
    | none => simp [List.filter_cons, List.filterMap_cons]; omega
    | some x => simp [List.filter_cons, List.filterMap_cons]; omega

theorem runClaims_spec : ∀ (n : Nat) (db : QueueDB) (now : Nat), WF db →
    (runClaims n db now).2.length = n ∧
    ((runClaims n db now).2.filterMap id).length = min n (pendingCount db) ∧
    (((runClaims n db now).2.filterMap id).map Job.id).Nodup ∧
    WF (runClaims n db now).1 ∧
    (∀ j ∈ (runClaims n db now).2.filterMap id,
        j ∈ db.rows ∧ j.status = Status.pending ∧
          claimRow now j ∈ (runClaims n db now).1.rows) ∧
    (∀ x ∈ db.rows, x.status = Status.processing → x ∈ (runClaims n db now).1.rows) := by
  intro n
  induction n with
  | zero =>
    intro db now hWF
    refine ⟨rfl, ?_, ?_, hWF, ?_, ?_⟩
    · simp [runClaims]
    · simp [runClaims]
    · intro j hj; simp [runClaims] at hj
    · intro x hx _; exact hx
  | succ n ih =>
    intro db now hWF
    rcases claimStep_cases db now with ⟨h1, ho⟩ | ⟨j, ho, h1⟩
    · have hM : pendingCount db = 0 :=
        pendingCount_eq_zero.mpr (oldestPending_eq_none.mp ho)
      obtain ⟨l1, l2, l3, l4, l5, l6⟩ := ih db now hWF
      have hr : runClaims (n + 1) db now
          = ((runClaims n db now).1, none :: (runClaims n db now).2) := by
        simp [runClaims, h1]
      rw [hr]
      refine ⟨by simp [l1], ?_, by simpa using l3, l4, ?_, l6⟩
      · simp only [List.filterMap_cons]
        simp only [id]
        rw [hM] at l2 ⊢
        simpa using l2
      · intro x hx
        simp only [List.filterMap_cons] at hx
        exact l5 x hx
    · obtain ⟨hjm, hjp, hdb1⟩ := claimStep_spec h1
      have hWF1 : WF ({ db with rows := updateById db.rows j.id (claimRow now) }) :=
        WF_updateById hWF (claimRow_id now)
      have hpc : pendingCount ({ db with rows := updateById db.rows j.id (claimRow now) }) + 1
          = pendingCount db :=
        hdb1 ▸ pendingCount_claimStep hWF h1
      obtain ⟨l1, l2, l3, l4, l5, l6⟩ :=
        ih ({ db with rows := updateById db.rows j.id (claimRow now) }) now hWF1
      have hcr : claimRow now j ∈
          ({ db with rows := updateById db.rows j.id (claimRow now) } : QueueDB).rows :=
        hdb1 ▸ claimRow_mem_claimStep h1
      have hr : runClaims (n + 1) db now
          = ((runClaims n ({ db with rows := updateById db.rows j.id (claimRow now) }) now).1,
             some j :: (runClaims n ({ db with rows := updateById db.rows j.id (claimRow now) }) now).2) := by
        simp [runClaims, h1, hdb1]
      rw [hr]
      refine ⟨by simp [l1], ?_, ?_, l4, ?_, ?_⟩
      · simp only [List.filterMap_cons, id, List.length_cons]
        rw [l2]
        omega
      · simp only [List.filterMap_cons, id, List.map_cons]
        rw [List.nodup_cons]
        refine ⟨?_, l3⟩
        intro hmem
        obtain ⟨j2, hj2mem, hj2id⟩ := List.mem_map.mp hmem
        obtain ⟨hj2in, hj2p, _⟩ := l5 j2 hj2mem
        have hj2cr : j2 = claimRow now j :=
          row_eq_of_id_eq hWF1.1 hj2in hcr (by rw [hj2id]; rfl)
        rw [hj2cr] at hj2p
        simp [claimRow] at hj2p
      · intro x hx
        simp only [List.filterMap_cons, id] at hx
        rcases List.mem_cons.mp hx with heq | hx2
        · subst heq
          refine ⟨hjm, hjp, ?_⟩
          have : (claimRow now x).status = Status.processing := rfl
          exact l6 (claimRow now x) hcr this
        · obtain ⟨hxin, hxp, hxcr⟩ := l5 x hx2
          refine ⟨?_, hxp, hxcr⟩
          obtain ⟨r, hrin, hre⟩ := mem_updateById_elim hxin
          by_cases hid : r.id = j.id
          · exfalso
            rw [hre, if_pos hid] at hxp
            simp [claimRow] at hxp
          · rw [hre, if_neg hid]
            exact hrin
      · intro x hx hxs
        have hx1 : x ∈ ({ db with rows := updateById db.rows j.id (claimRow now) } : QueueDB).rows :=
          hdb1 ▸ mem_claimStep_of_processing hWF h1 hx hxs
        exact l6 x hx1 hxs

theorem pred_updateById {P : Job → Prop} {rows : List Job} {i : Nat} {f : Job → Job}
    (h : ∀ r ∈ rows, P r) (hf : ∀ r ∈ rows, r.id = i → P (f r)) :
    ∀ x ∈ updateById rows i f, P x := by
  intro x hx
  obtain ⟨r, hr, he⟩ := mem_updateById_elim hx
  by_cases hid : r.id = i
  · rw [he, if_pos hid]; exact hf r hr hid
  · rw [he, if_neg hid]; exact h r hr

theorem processNextItem_none (adapter : Adapter) {db : QueueDB} {now : Nat}
    (h : oldestPending db.rows = none) :
    processNextItem adapter db now = (db, false) := by
  have hc : claimStep db now = (db, none) := by
    unfold claimStep
    rw [h]
  unfold processNextItem
  rw [hc]

theorem processNextItem_some (adapter : Adapter) {db db1 : QueueDB} {now : Nat} {j : Job}
    (h : claimStep db now = (db1, some j)) :
    processNextItem adapter db now =
      match adapter j.originalText with
      | Except.ok t =>
          ({ db1 with
              rows := updateById db1.rows j.id (completeRow t now)
              usage := db1.usage ++
                [{ userId := j.userId, wordCount := j.wordCount, timestamp := now }] },
           true)
      | Except.error e =>
          ({ db1 with
              rows := updateById db1.rows j.id
                (failRow (if maxAttempts ≤ j.attempts then Status.failed else Status.pending)
                  e now) },
           true) := by
  unfold processNextItem
  rw [h]

theorem processNextItem_cases (adapter : Adapter) (db : QueueDB) (now : Nat) :
    (oldestPending db.rows = none ∧ processNextItem adapter db now = (db, false)) ∨
    (∃ j, oldestPending db.rows = some j ∧
      ((∃ t, adapter j.originalText = Except.ok t ∧
          processNextItem adapter db now =
            ({ rows := updateById (updateById db.rows j.id (claimRow now)) j.id
                 (completeRow t now),
               nextId := db.nextId,
               usage := db.usage ++
                 [{ userId := j.userId, wordCount := j.wordCount, timestamp := now }] },
             true)) ∨
       (∃ e, adapter j.originalText = Except.error e ∧
          processNextItem adapter db now =
            ({ rows := updateById (updateById db.rows j.id (claimRow now)) j.id
                 (failRow (if maxAttempts ≤ j.attempts then Status.failed else Status.pending)
                   e now),
               nextId := db.nextId,
               usage := db.usage },
             true)))) := by
  rcases claimStep_cases db now with ⟨h1, ho⟩ | ⟨j, ho, h1⟩
  · exact Or.inl ⟨ho, processNextItem_none adapter ho⟩
  · refine Or.inr ⟨j, ho, ?_⟩
    have hp := processNextItem_some adapter h1
    cases ha : adapter j.originalText with
    | ok t =>
      refine Or.inl ⟨t, rfl, ?_⟩
      rw [hp, ha]
    | error e =>
      refine Or.inr ⟨e, rfl, ?_⟩
      rw [hp, ha]

theorem humanized_none_of_inv {j : Job} (h : JobInv j)
    (hs : j.status ≠ Status.completed) : j.humanizedText = none := by
  by_contra hne
  exact hs (h.mp hne)

theorem completionInv_addToQueue {db : QueueDB} (h : CompletionInv db)
    (uid : Nat) (text : String) (wc now : Nat) :
    CompletionInv (addToQueue db uid text wc now).1 := by
  intro x hx
  rcases List.mem_append.mp hx with hx1 | hx2
  · exact h x hx1
  · rw [List.mem_singleton.mp hx2]
    simp [JobInv, newJob]

theorem completionInv_processNextItem {db : QueueDB} (hWF : WF db)
    (h : CompletionInv db) (adapter : Adapter) (now : Nat) :
    CompletionInv (processNextItem adapter db now).1 := by
  rcases processNextItem_cases adapter db now with ⟨_, hp⟩ | ⟨j, ho, hcase⟩
  · rw [hp]; exact h
  · obtain ⟨hjm, hjp⟩ := oldestPending_mem ho
    have hnone : j.humanizedText = none :=
      humanized_none_of_inv (h j hjm) (by rw [hjp]; intro hc; cases hc)
    have hinv1 : ∀ x ∈ updateById db.rows j.id (claimRow now), JobInv x := by
      refine pred_updateById h ?_
      intro r hr hid
      have hrj : r = j := row_eq_of_id_eq hWF.1 hr hjm hid
      rw [hrj]
      simp [JobInv, claimRow, hnone]
    have hWF1 : WF ({ db with rows := updateById db.rows j.id (claimRow now) }) :=
      WF_updateById hWF (claimRow_id now)
    have hcr : claimRow now j ∈ updateById db.rows j.id (claimRow now) :=
      updated_mem_updateById hjm rfl
    rcases hcase with ⟨t, _, hp⟩ | ⟨e, _, hp⟩
    · rw [hp]
      intro x hx
      refine pred_updateById hinv1 ?_ x hx
      intro r _ _
      simp [JobInv, completeRow]
    · rw [hp]
      intro x hx
      refine pred_updateById hinv1 ?_ x hx
      intro r hr hid
      have hrc : r = claimRow now j :=
        row_eq_of_id_eq hWF1.1 hr hcr (by rw [hid]; rfl)
      rw [hrc]
      unfold JobInv failRow claimRow
      simp [hnone]
      split <;> intro hc <;> cases hc

theorem retryRequest_eq_of_find_none {db : QueueDB} {rid uid now : Nat}
    (hf : db.rows.find? (fun r => decide (r.id = rid ∧ r.userId = uid)) = none) :
    retryRequest db rid uid now = Except.error QueueError.notFoundOrNotAuthorized := by
  unfold retryRequest
  rw [hf]

theorem retryRequest_eq_of_find {db : QueueDB} {rid uid now : Nat} {req : Job}
    (hf : db.rows.find? (fun r => decide (r.id = rid ∧ r.userId = uid)) = some req) :
    retryRequest db rid uid now =
      if req.status = Status.failed then
        Except.ok { db with rows := updateById db.rows rid (retryRow now) }
      else
        Except.error (QueueError.invalidState req.status) := by
  unfold retryRequest
  rw [hf]

theorem completionInv_retryRequest {db db2 : QueueDB} (hWF : WF db)
    (h : CompletionInv db) {rid uid now : Nat}
    (hr : retryRequest db rid uid now = Except.ok db2) : CompletionInv db2 := by
  cases hf : db.rows.find? (fun r => decide (r.id = rid ∧ r.userId = uid)) with
  | none => rw [retryRequest_eq_of_find_none hf] at hr; cases hr
  | some req =>
    rw [retryRequest_eq_of_find hf] at hr
    by_cases hs : req.status = Status.failed
    · rw [if_pos hs] at hr
      have hdb2 := Except.ok.inj hr
      rw [← hdb2]
      intro x hx
      refine pred_updateById h ?_ x hx
      intro r hrm hid
      have hreqm := List.mem_of_find?_eq_some hf
      have hpred := List.find?_some hf
      simp at hpred
      have hrreq : r = req := row_eq_of_id_eq hWF.1 hrm hreqm (by rw [hid, hpred.1])
      have hnone : req.humanizedText = none :=
        humanized_none_of_inv (h req hreqm) (by rw [hs]; intro hc; cases hc)
      rw [hrreq]
      simp [JobInv, retryRow, hnone]
    · rw [if_neg hs] at hr; cases hr

theorem failedAtCap_addToQueue {db : QueueDB} (h : FailedAtCap db)
    (uid : Nat) (text : String) (wc now : Nat) :
    FailedAtCap (addToQueue db uid text wc now).1 := by
  intro x hx
  rcases List.mem_append.mp hx with hx1 | hx2
  · exact h x hx1
  · rw [List.mem_singleton.mp hx2]
    intro hc
    simp [newJob] at hc

theorem failedAtCap_processNextItem {db : QueueDB} (hWF : WF db)
    (h : FailedAtCap db) (adapter : Adapter) (now : Nat) :
    FailedAtCap (processNextItem adapter db now).1 := by
  rcases processNextItem_cases adapter db now with ⟨_, hp⟩ | ⟨j, ho, hcase⟩
  · rw [hp]; exact h
  · obtain ⟨hjm, hjp⟩ := oldestPending_mem ho
    have hcap1 : ∀ x ∈ updateById db.rows j.id (claimRow now), JobCap x := by
      refine pred_updateById h ?_
      intro r _ _
      intro hc; cases hc
    have hWF1 : WF ({ db with rows := updateById db.rows j.id (claimRow now) }) :=
      WF_updateById hWF (claimRow_id now)
    have hcr : claimRow now j ∈ updateById db.rows j.id (claimRow now) :=
      updated_mem_updateById hjm rfl
    rcases hcase with ⟨t, _, hp⟩ | ⟨e, _, hp⟩
    · rw [hp]
      intro x hx
      refine pred_updateById hcap1 ?_ x hx
      intro r _ _
      intro hc; cases hc
    · rw [hp]
      intro x hx
      refine pred_updateById hcap1 ?_ x hx
      intro r hr hid
      have hrc : r = claimRow now j :=
        row_eq_of_id_eq hWF1.1 hr hcr (by rw [hid]; rfl)
      rw [hrc]
      intro hc
      by_cases hm : maxAttempts ≤ j.attempts
      · have hat : (failRow (if maxAttempts ≤ j.attempts then Status.failed
            else Status.pending) e now (claimRow now j)).attempts = j.attempts + 1 := rfl
        rw [hat]
        unfold maxAttempts at hm ⊢
        omega
      · exfalso
        have hst : (failRow (if maxAttempts ≤ j.attempts then Status.failed
            else Status.pending) e now (claimRow now j)).status = Status.pending := by
          unfold failRow
          simp [hm]
        rw [hc] at hst
        cases hst

theorem failedAtCap_retryRequest {db db2 : QueueDB}
    (h : FailedAtCap db) {rid uid now : Nat}
    (hr : retryRequest db rid uid now = Except.ok db2) : FailedAtCap db2 := by
  cases hf : db.rows.find? (fun r => decide (r.id = rid ∧ r.userId = uid)) with
  | none => rw [retryRequest_eq_of_find_none hf] at hr; cases hr
  | some req =>
    rw [retryRequest_eq_of_find hf] at hr
    by_cases hs : req.status = Status.failed
    · rw [if_pos hs] at hr
      rw [← Except.ok.inj hr]
      intro x hx
      refine pred_updateById h ?_ x hx
      intro r _ _
      intro hc; cases hc
    · rw [if_neg hs] at hr; cases hr

theorem failedAtCap_empty (n : Nat) (u : List UsageRow) :
    FailedAtCap { rows := [], nextId := n, usage := u } := by
  intro x hx
  cases hx

theorem find?_owner_eq {db : QueueDB} (hWF : WF db) {rid uid : Nat} {j : Job}
    (hj : j ∈ db.rows) (hid : j.id = rid) (huid : j.userId = uid) :
    db.rows.find? (fun r => decide (r.id = rid ∧ r.userId = uid)) = some j := by
  cases hf : db.rows.find? (fun r => decide (r.id = rid ∧ r.userId = uid)) with
  | none =>
    exfalso
    rw [List.find?_eq_none] at hf
    exact hf j hj (by simp [hid, huid])
  | some r =>
    have hp := List.find?_some hf
    simp at hp
    have hrm := List.mem_of_find?_eq_some hf
    rw [row_eq_of_id_eq hWF.1 hrm hj (by rw [hp.1, hid])]

theorem WF_addToQueue {db : QueueDB} (hWF : WF db) (uid : Nat) (text : String)
    (wc now : Nat) : WF (addToQueue db uid text wc now).1 := by
  constructor
  · show ((db.rows ++ [newJob db uid text wc now]).map Job.id).Nodup
    rw [List.map_append]
    refine List.Nodup.append hWF.1 (by simp) ?_
    intro a ha hb
    simp [newJob] at hb
    obtain ⟨r, hr, hrid⟩ := List.mem_map.mp ha
    have := hWF.2 r hr
    omega
  · intro x hx
    rcases List.mem_append.mp hx with h1 | h2
    · exact Nat.lt_trans (hWF.2 x h1) (Nat.lt_succ_self _)
    · rw [List.mem_singleton.mp h2]
      exact Nat.lt_succ_self _

/-! Theorems settling the claims. -/

/-- C7: calling `processNextItem` when no row has status `pending` returns
`false` (no work done) without error and leaves the whole database — every
job row and the usage table — unchanged. -/
theorem claim_C7_empty_poll (adapter : Adapter) (db : QueueDB) (now : Nat)
    (h : ∀ j ∈ db.rows, j.status ≠ Status.pending) :
    processNextItem adapter db now = (db, false) :=
  processNextItem_none adapter (oldestPending_eq_none.mpr h)

/-- Witness for C7 on a concrete table with one completed and one failed row. -/
theorem claim_C7_empty_poll_witness :
    processNextItem okAdapter noPendingDB 9 = (noPendingDB, false) :=
  claim_C7_empty_poll okAdapter noPendingDB 9 (by decide)

/-- C8: in the worker loop, an iteration whose `processNextItem` call threw
increments the consecutive-error counter; once the incremented counter
reaches the threshold (`MAX_CONSECUTIVE_ERRORS = 10`) the loop sleeps five
times the polling interval and resets the counter to half the threshold
(`10 / 2 = 5`), below the threshold it sleeps the normal interval; an
iteration that processed an item resets the counter to 0 and does not
sleep. -/
theorem claim_C8_worker_backoff (interval c : Nat) :
    maxConsecutiveErrors = 10 ∧
    maxConsecutiveErrors / 2 = 5 ∧
    workerStep interval c PollOutcome.processed = (0, 0) ∧
    (c + 1 < maxConsecutiveErrors →
      workerStep interval c PollOutcome.threw = (c + 1, interval)) ∧
    (maxConsecutiveErrors ≤ c + 1 →
      workerStep interval c PollOutcome.threw = (maxConsecutiveErrors / 2, interval * 5)) := by
  refine ⟨rfl, rfl, rfl, ?_, ?_⟩
  · intro h
    unfold workerStep
    rw [if_neg (by omega)]
  · intro h
    unfold workerStep
    rw [if_pos h]

/-- Witness for C8 at the default 5000 ms interval, below and at threshold. -/
theorem claim_C8_worker_backoff_witness :
    workerStep 5000 3 PollOutcome.processed = (0, 0) ∧
    workerStep 5000 3 PollOutcome.threw = (4, 5000) ∧
    workerStep 5000 9 PollOutcome.threw = (5, 25000) :=
  ⟨(claim_C8_worker_backoff 5000 3).2.2.1,
   (claim_C8_worker_backoff 5000 3).2.2.2.1 (by decide),
   (claim_C8_worker_backoff 5000 9).2.2.2.2 (by decide)⟩

/-- C3 (amended): when the claim/update storage transaction inside
`processNextItem` errors, whether the exception reaches the Worker Loop
depends on the catch block's own `ROLLBACK`. On connection loss — the
claim's exemplar — the `ROLLBACK` on the dead client also rejects, the
exception escapes `processNextItem`, and the loop's iteration counts a
consecutive exception: below the threshold the counter increments and the
loop sleeps the normal interval, at the threshold it backs off for five
intervals and resets the counter to half the threshold; the loop continues
and does not crash. On a transaction error that leaves the connection
usable, the `ROLLBACK` succeeds, `processNextItem` swallows the error and
resolves `false`, and the counter does not increment. -/
theorem claim_C3_txn_error_split (f : TxnFault) (adapter : Adapter)
    (db : QueueDB) (now interval c : Nat) :
    (f.connectionLost = true →
      processNextItemTx (some f) adapter db now = Except.error f.message) ∧
    (f.connectionLost = true → c + 1 < maxConsecutiveErrors →
      workerIterationTx interval c (some f) adapter db now = (db, c + 1, interval)) ∧
    (f.connectionLost = true → maxConsecutiveErrors ≤ c + 1 →
      workerIterationTx interval c (some f) adapter db now
        = (db, maxConsecutiveErrors / 2, interval * 5)) ∧
    (f.connectionLost = false →
      processNextItemTx (some f) adapter db now = Except.ok (db, false)) ∧
    (f.connectionLost = false →
      workerIterationTx interval c (some f) adapter db now = (db, c, interval)) := by
  refine ⟨?_, ?_, ?_, ?_, ?_⟩
  · intro h
    simp [processNextItemTx, h]
  · intro h hlt
    unfold workerIterationTx
    simp only [processNextItemTx, h, if_true]
    unfold workerStep
    rw [if_neg (by omega)]
  · intro h hge
    unfold workerIterationTx
    simp only [processNextItemTx, h, if_true]
    unfold workerStep
    rw [if_pos hge]
  · intro h
    simp [processNextItemTx, h]
  · intro h
    unfold workerIterationTx
    simp only [processNextItemTx, h]
    rfl

/-- Witness for C3: a terminated connection propagates and drives the
counter (3 becomes 4 below the threshold; 9 becomes 10, triggering the long
backoff and the reset to 5), while a deadlock abort on a live connection
leaves the counter at 3. -/
theorem claim_C3_txn_error_split_witness :
    workerIterationTx 5000 3
        (some { message := "Connection terminated unexpectedly", connectionLost := true })
        failingAdapter scenarioDB 1 = (scenarioDB, 4, 5000) ∧
    workerIterationTx 5000 9
        (some { message := "Connection terminated unexpectedly", connectionLost := true })
        failingAdapter scenarioDB 1 = (scenarioDB, 5, 25000) ∧
    workerIterationTx 5000 3
        (some { message := "deadlock detected", connectionLost := false })
        failingAdapter scenarioDB 1 = (scenarioDB, 3, 5000) :=
  ⟨(claim_C3_txn_error_split
      { message := "Connection terminated unexpectedly", connectionLost := true }
      failingAdapter scenarioDB 1 5000 3).2.1 rfl (by decide),
   (claim_C3_txn_error_split
      { message := "Connection terminated unexpectedly", connectionLost := true }
      failingAdapter scenarioDB 1 5000 9).2.2.1 rfl (by decide),
   (claim_C3_txn_error_split
      { message := "deadlock detected", connectionLost := false }
      failingAdapter scenarioDB 1 5000 3).2.2.2.2 rfl⟩

/-- Counterexample for C3 as stated: a claim-transaction error that leaves
the connection usable (here a statement timeout) does not propagate —
`processNextItem` resolves `false` after its catch's `ROLLBACK` succeeds —
so the worker's consecutive-exception counter stays at 3 instead of
incrementing to 4. -/
theorem claim_C3_counterexample :
    processNextItemTx
        (some { message := "canceling statement due to statement timeout",
                connectionLost := false })
        failingAdapter scenarioDB 1 = Except.ok (scenarioDB, false) ∧
    workerIterationTx 5000 3
        (some { message := "canceling statement due to statement timeout",
                connectionLost := false })
        failingAdapter scenarioDB 1 = (scenarioDB, 3, 5000) ∧
    (workerIterationTx 5000 3
        (some { message := "canceling statement due to statement timeout",
                connectionLost := false })
        failingAdapter scenarioDB 1).2.1 ≠ 3 + 1 := by
  refine ⟨rfl, rfl, by decide⟩

/-- C1: evaluating the code on a fresh job whose every humanize call fails:
the third failing `processNextItem` call leaves the row `pending` with
`attempts = 3` (the claim expects `failed` there); only the fourth call marks
it `failed`, with `attempts = 4`, because the code compares the pre-increment
`item.attempts` against `maxAttempts = 3`. -/
theorem claim_C1_attempt_cap_bug :
    (iterFail 3).rows.map (fun r => (r.status, r.attempts, r.errorMessage))
      = [(Status.pending, 3, some "timeout")] ∧
    (iterFail 4).rows.map (fun r => (r.status, r.attempts, r.errorMessage))
      = [(Status.failed, 4, some "timeout")] ∧
    maxAttempts = 3 := by
  exact ⟨by decide, by decide, rfl⟩

/-- C2: with the claim transaction atomic (the row lock serializes concurrent
claimers), any serialization of `n` claim-step invocations against a table
with `pendingCount db ≤ n` pending jobs claims exactly `pendingCount db`
distinct jobs; each claimed job was pending, is claimed by exactly one caller
(the claimed ids are pairwise distinct), ends up `processing` in the final
state, and the remaining `n - pendingCount db` callers get `none` (no work)
instead of blocking. -/
theorem claim_C2_at_most_one_claim (db : QueueDB) (now n : Nat)
    (hWF : WF db) (hMN : pendingCount db ≤ n) :
    (runClaims n db now).2.length = n ∧
    ((runClaims n db now).2.filterMap id).length = pendingCount db ∧
    (((runClaims n db now).2.filterMap id).map Job.id).Nodup ∧
    (∀ j ∈ (runClaims n db now).2.filterMap id,
        j ∈ db.rows ∧ j.status = Status.pending ∧
          ∃ r ∈ (runClaims n db now).1.rows, r.id = j.id ∧ r.status = Status.processing) ∧
    ((runClaims n db now).2.filter (fun o => decide (o = none))).length
        = n - pendingCount db := by
  obtain ⟨l1, l2, l3, l4, l5, l6⟩ := runClaims_spec n db now hWF
  have hmin : min n (pendingCount db) = pendingCount db := min_eq_right hMN
  refine ⟨l1, by rw [l2, hmin], l3, ?_, ?_⟩
  · intro j hj
    obtain ⟨hjm, hjp, hcr⟩ := l5 j hj
    exact ⟨hjm, hjp, claimRow now j, hcr, rfl, rfl⟩
  · have hc := filter_none_add_filterMap (runClaims n db now).2
    rw [l1, l2, hmin] at hc
    omega

/-- Witness for C2: three serialized claimers against two pending jobs claim
exactly two distinct jobs and one claimer comes away empty. -/
theorem claim_C2_at_most_one_claim_witness :
    ((runClaims 3 twoPendingDB 9).2.filterMap id).length = 2 ∧
    (((runClaims 3 twoPendingDB 9).2.filterMap id).map Job.id).Nodup ∧
    ((runClaims 3 twoPendingDB 9).2.filter (fun o => decide (o = none))).length = 1 := by
  have h := claim_C2_at_most_one_claim twoPendingDB 9 3 ⟨by decide, by decide⟩ (by decide)
  exact ⟨h.2.1.trans (by decide), h.2.2.1, h.2.2.2.2.trans (by decide)⟩

/-- C6: sequential single-worker claims take pending jobs in strictly
ascending creation-time order: when the pending rows carry pairwise-distinct
creation times, two successive successful claim steps return jobs with
strictly increasing `createdAt`. -/
theorem claim_C6_fifo (db db1 db2 : QueueDB) (now1 now2 : Nat) (j1 j2 : Job)
    (hdist : ∀ a ∈ db.rows, ∀ b ∈ db.rows, a.status = Status.pending →
      b.status = Status.pending → a.id ≠ b.id → a.createdAt ≠ b.createdAt)
    (h1 : claimStep db now1 = (db1, some j1))
    (h2 : claimStep db1 now2 = (db2, some j2)) :
    j1.createdAt < j2.createdAt := by
  have ho1 := claimStep_oldest h1
  have ho2 := claimStep_oldest h2
  obtain ⟨hj1m, hj1p⟩ := oldestPending_mem ho1
  obtain ⟨hj2m, hj2p⟩ := oldestPending_mem ho2
  obtain ⟨_, _, hdb1⟩ := claimStep_spec h1
  rw [hdb1] at hj2m
  obtain ⟨r, hrm, hre⟩ := mem_updateById_elim hj2m
  by_cases hid : r.id = j1.id
  · exfalso
    rw [hre, if_pos hid] at hj2p
    simp [claimRow] at hj2p
  · have hj2r : j2 = r := by rw [hre, if_neg hid]
    have hj2db : j2 ∈ db.rows := hj2r ▸ hrm
    have hle := oldestPending_le ho1 j2 hj2db hj2p
    have hne : j1.id ≠ j2.id := by
      rw [hj2r]
      exact fun he => hid he.symm
    have hneq := hdist j1 hj1m j2 hj2db hj1p hj2p hne
    omega

/-- Witness for C6: in the two-job table the first claim takes the job
created at 3 and the second the job created at 5. -/
theorem claim_C6_fifo_witness :
    ({ scenarioJob with id := 2, createdAt := 3 } : Job).createdAt
      < ({ scenarioJob with id := 1, createdAt := 5 } : Job).createdAt :=
  claim_C6_fifo twoPendingDB (claimStep twoPendingDB 9).1
    (claimStep (claimStep twoPendingDB 9).1 10).1 9 10
    { scenarioJob with id := 2, createdAt := 3 }
    { scenarioJob with id := 1, createdAt := 5 }
    (by decide) (by decide) (by decide)

/-- C4: `retryRequest` succeeds iff a row with the given id belongs to the
caller and has status `failed`; on success it resets that row to `pending`
with `error_message` cleared, leaving `attempts`, `id`, `original_text`,
`humanized_text`, `word_count`, `created_at` and `completed_at` unchanged and
every other row untouched; on a matching row in any other status it fails
with the invalid-state error carrying that status, and when no row matches
both id and owner it fails with the unified not-found/not-authorized
error. -/
theorem claim_C4_retry_legality (db : QueueDB) (rid uid now : Nat) (hWF : WF db) :
    ((∃ db2, retryRequest db rid uid now = Except.ok db2) ↔
      ∃ j ∈ db.rows, j.id = rid ∧ j.userId = uid ∧ j.status = Status.failed) ∧
    (∀ j ∈ db.rows, j.id = rid → j.userId = uid → j.status ≠ Status.failed →
      retryRequest db rid uid now = Except.error (QueueError.invalidState j.status)) ∧
    ((∀ j ∈ db.rows, ¬(j.id = rid ∧ j.userId = uid)) →
      retryRequest db rid uid now = Except.error QueueError.notFoundOrNotAuthorized) ∧
    (∀ j ∈ db.rows, j.id = rid → j.userId = uid → j.status = Status.failed →
      retryRequest db rid uid now =
        Except.ok { db with rows := updateById db.rows rid (retryRow now) } ∧
      retryRow now j ∈ updateById db.rows rid (retryRow now) ∧
      (∀ r ∈ db.rows, r.id ≠ rid → r ∈ updateById db.rows rid (retryRow now))) ∧
    (∀ r : Job, (retryRow now r).status = Status.pending ∧
      (retryRow now r).errorMessage = none ∧
      (retryRow now r).attempts = r.attempts ∧
      (retryRow now r).id = r.id ∧
      (retryRow now r).originalText = r.originalText ∧
      (retryRow now r).humanizedText = r.humanizedText ∧
      (retryRow now r).wordCount = r.wordCount ∧
      (retryRow now r).createdAt = r.createdAt ∧
      (retryRow now r).completedAt = r.completedAt) := by
  refine ⟨⟨?_, ?_⟩, ?_, ?_, ?_, ?_⟩
  · rintro ⟨db2, hok⟩
    cases hf : db.rows.find? (fun r => decide (r.id = rid ∧ r.userId = uid)) with
    | none => rw [retryRequest_eq_of_find_none hf] at hok; cases hok
    | some req =>
      rw [retryRequest_eq_of_find hf] at hok
      by_cases hs : req.status = Status.failed
      · have hp := List.find?_some hf
        simp at hp
        exact ⟨req, List.mem_of_find?_eq_some hf, hp.1, hp.2, hs⟩
      · rw [if_neg hs] at hok; cases hok
  · rintro ⟨j, hj, hid, huid, hs⟩
    rw [retryRequest_eq_of_find (find?_owner_eq hWF hj hid huid), if_pos hs]
    exact ⟨_, rfl⟩
  · intro j hj hid huid hs
    rw [retryRequest_eq_of_find (find?_owner_eq hWF hj hid huid), if_neg hs]
  · intro h
    rw [retryRequest_eq_of_find_none ?_]
    rw [List.find?_eq_none]
    intro a ha
    simpa using h a ha
  · intro j hj hid huid hs
    refine ⟨?_, ?_, ?_⟩
    · rw [retryRequest_eq_of_find (find?_owner_eq hWF hj hid huid), if_pos hs]
    · exact updated_mem_updateById hj hid
    · intro r hr hne
      exact mem_updateById_of_ne hr hne
  · intro r
    exact ⟨rfl, rfl, rfl, rfl, rfl, rfl, rfl, rfl, rfl⟩

/-- Witness for C4: retrying the concrete failed job succeeds and resets it;
retrying a completed job gives the invalid-state error; retrying an id that
does not match gives the not-found error. -/
theorem claim_C4_retry_legality_witness :
    retryRequest failedDB 1 7 8 = Except.ok retriedDB ∧
    retryRequest noPendingDB 1 7 8
      = Except.error (QueueError.invalidState Status.completed) ∧
    retryRequest failedDB 5 7 8 = Except.error QueueError.notFoundOrNotAuthorized := by
  have h1 := claim_C4_retry_legality failedDB 1 7 8 ⟨by decide, by decide⟩
  have h2 := claim_C4_retry_legality noPendingDB 1 7 8 ⟨by decide, by decide⟩
  have h3 := claim_C4_retry_legality failedDB 5 7 8 ⟨by decide, by decide⟩
  refine ⟨?_, ?_, ?_⟩
  · have hok := (h1.2.2.2.1 failedJob (by decide) rfl rfl rfl).1
    have hdb : ({ failedDB with rows := updateById failedDB.rows 1 (retryRow 8) } : QueueDB)
        = retriedDB := by decide
    exact hok.trans (congrArg Except.ok hdb)
  · have hinv := h2.2.1
      { scenarioJob with
        id := 1, status := Status.completed,
        humanizedText := some "HELLO WORLD", completedAt := some 2 }
      (by decide) rfl rfl (by decide)
    exact hinv
  · exact h3.2.2.1 (by decide)

/-- C9: `addToQueue` inserts a new `pending` job and returns its assigned id,
status and creation time, and an immediate `getStatus` by the owner returns
that job with status `pending`, `attempts 0` and `humanized_text` null. -/
theorem claim_C9_enqueue (db : QueueDB) (uid : Nat) (text : String)
    (wc now : Nat) (hWF : WF db) :
    (addToQueue db uid text wc now).2 = (db.nextId, Status.pending, now) ∧
    ∃ j, getStatus (addToQueue db uid text wc now).1 db.nextId uid = Except.ok j ∧
      j.status = Status.pending ∧ j.attempts = 0 ∧ j.humanizedText = none ∧
      j.errorMessage = none ∧ j.id = db.nextId ∧ j.userId = uid ∧
      j.originalText = text ∧ j.wordCount = wc ∧ j.createdAt = now := by
  refine ⟨rfl, newJob db uid text wc now, ?_, rfl, rfl, rfl, rfl, rfl, rfl, rfl, rfl, rfl⟩
  have hWF2 := WF_addToQueue hWF uid text wc now
  have hjmem : newJob db uid text wc now ∈ (addToQueue db uid text wc now).1.rows := by
    show newJob db uid text wc now ∈ db.rows ++ [newJob db uid text wc now]
    exact List.mem_append_right _ (List.mem_singleton_self _)
  have hfind := @find?_owner_eq (addToQueue db uid text wc now).1 hWF2 db.nextId uid
    (newJob db uid text wc now) hjmem rfl rfl
  unfold getStatus
  rw [hfind]

/-- Witness for C9 on the concrete one-row table. -/
theorem claim_C9_enqueue_witness :
    (addToQueue scenarioDB 7 "abc" 1 9).2 = (2, Status.pending, 9) ∧
    ∃ j, getStatus (addToQueue scenarioDB 7 "abc" 1 9).1 2 7 = Except.ok j ∧
      j.status = Status.pending ∧ j.attempts = 0 ∧ j.humanizedText = none := by
  have h := claim_C9_enqueue scenarioDB 7 "abc" 1 9 ⟨by decide, by decide⟩
  obtain ⟨j, hj, hs, ha, hh, _⟩ := h.2
  exact ⟨h.1, j, hj, hs, ha, hh⟩

/-- C5: the completion invariant — `humanized_text` non-null iff status is
`completed`, for every row — holds after enqueue, after a full
`processNextItem` cycle (claim, then completion or failure), and after a
successful manual retry, whenever it held before; the humanizer is assumed
to resolve only with a non-empty string, as the claim states (the proof
needs only that a resolved value is a string, hence non-null). -/
theorem claim_C5_completion_invariant (db db2 : QueueDB) (adapter : Adapter)
    (uid : Nat) (text : String) (wc now1 now2 rid uid2 now3 : Nat)
    (hWF : WF db) (hinv : CompletionInv db)
    (_hadapter : ∀ s t, adapter s = Except.ok t → t ≠ "") :
    CompletionInv (addToQueue db uid text wc now1).1 ∧
    CompletionInv (processNextItem adapter db now2).1 ∧
    (retryRequest db rid uid2 now3 = Except.ok db2 → CompletionInv db2) :=
  ⟨completionInv_addToQueue hinv uid text wc now1,
   completionInv_processNextItem hWF hinv adapter now2,
   fun hr => completionInv_retryRequest hWF hinv hr⟩

/-- Witness for C5 on the concrete one-row table with the succeeding
adapter. -/
theorem claim_C5_completion_invariant_witness :
    CompletionInv (addToQueue scenarioDB 7 "more" 1 4).1 ∧
    CompletionInv (processNextItem okAdapter scenarioDB 5).1 ∧
    (retryRequest scenarioDB 1 7 6 = Except.ok scenarioDB → CompletionInv scenarioDB) := by
  refine claim_C5_completion_invariant scenarioDB scenarioDB okAdapter 7 "more" 1 4 5 1 7 6
    ⟨by decide, by decide⟩ ?_ ?_
  · intro j hj
    rw [List.mem_singleton.mp hj]
    simp [JobInv, scenarioJob]
  · intro s t h
    simp only [okAdapter] at h
    rw [← Except.ok.inj h]
    decide

/-- C10: a job resurrected with `retryRequest` after reaching `failed` keeps
its attempts counter, which is already above `maxAttempts` (the `FailedAtCap`
invariant, preserved by every operation per the `failedAtCap` lemmas), so the
very next failing processing attempt that claims it marks it `failed` again:
no fresh budget of three attempts is granted. -/
theorem claim_C10_no_fresh_budget (db db2 : QueueDB) (j jr : Job)
    (adapter : Adapter) (now1 now2 : Nat) (msg : String)
    (hWF : WF db) (hcap : FailedAtCap db)
    (hj : j ∈ db.rows) (hjs : j.status = Status.failed)
    (hretry : retryRequest db j.id j.userId now1 = Except.ok db2)
    (hclaim : oldestPending db2.rows = some jr) (hjrid : jr.id = j.id)
    (hadapter : adapter jr.originalText = Except.error msg) :
    ∃ r ∈ (processNextItem adapter db2 now2).1.rows,
      r.id = j.id ∧ r.status = Status.failed ∧ r.attempts = j.attempts + 1 := by
  have hfind := find?_owner_eq hWF hj rfl rfl
  rw [retryRequest_eq_of_find hfind, if_pos hjs] at hretry
  have hdb2 := Except.ok.inj hretry
  have hWF2 : WF db2 := hdb2 ▸ WF_updateById hWF (retryRow_id now1)
  have hrr : retryRow now1 j ∈ db2.rows := by
    rw [← hdb2]
    exact updated_mem_updateById hj rfl
  obtain ⟨hjrm, hjrp⟩ := oldestPending_mem hclaim
  have hjr : jr = retryRow now1 j :=
    row_eq_of_id_eq hWF2.1 hjrm hrr (by rw [hjrid]; rfl)
  have hat : maxAttempts + 1 ≤ j.attempts := hcap j hj hjs
  have hjrat : jr.attempts = j.attempts := by rw [hjr]; rfl
  have hcond : maxAttempts ≤ jr.attempts := by
    rw [hjrat]
    omega
  have hc2 : claimStep db2 now2
      = ({ db2 with rows := updateById db2.rows jr.id (claimRow now2) }, some jr) := by
    unfold claimStep
    rw [hclaim]
  have hp := processNextItem_some adapter hc2
  rw [hadapter] at hp
  refine ⟨failRow Status.failed msg now2 (claimRow now2 jr), ?_, ?_, rfl, ?_⟩
  · rw [hp]
    show failRow Status.failed msg now2 (claimRow now2 jr) ∈
      updateById (updateById db2.rows jr.id (claimRow now2)) jr.id
        (failRow (if maxAttempts ≤ jr.attempts then Status.failed else Status.pending)
          msg now2)
    rw [if_pos hcond]
    exact updated_mem_updateById (updated_mem_updateById hjrm rfl) rfl
  · show jr.id = j.id
    exact hjrid
  · show jr.attempts + 1 = j.attempts + 1
    rw [hjrat]

/-- Witness for C10: the concrete failed job (four attempts) is retried,
claimed again, fails once more, and is `failed` again with five attempts. -/
theorem claim_C10_no_fresh_budget_witness :
    ∃ r ∈ (processNextItem failingAdapter retriedDB 9).1.rows,
      r.id = failedJob.id ∧ r.status = Status.failed ∧
        r.attempts = failedJob.attempts + 1 :=
  claim_C10_no_fresh_budget failedDB retriedDB failedJob
    { failedJob with status := Status.pending, updatedAt := 8, errorMessage := none }
    failingAdapter 8 9 "timeout"
    ⟨by decide, by decide⟩
    (by intro x hx; rw [List.mem_singleton.mp hx]; exact fun _ => by decide)
    (by decide) rfl rfl (by decide) rfl rfl

end HumanizeQueue
